import Mathlib

/-
Verification of the lazy chain engine of the Types repository.

The development shallowly embeds the enumerator classes of the chain module
(UniquelyEnumerator, ZippedEnumerator, SortedEnumerator, FlattenedEnumerator,
the factory function, and the Objectwise source enumerator) as executable Lean
functions over a small model of JavaScript runtime values, and proves or
refutes the frozen claims about them.

Modelling conventions:
- a JavaScript value is modelled by JSVal below; object-kind values are
  modelled by a reference identifier, so that strict equality on the obj
  branch is reference identity, exactly as the === operator behaves;
- numbers are restricted to integers (every concrete number appearing in the
  claims is an integer);
- an upstream chain link is modelled by the sequence of (index, element)
  pairs its cursor yields, one pair per successful moveNext call, since a
  link is immutable and every cursor obtained from it replays that sequence;
- a thrown exception is modelled by the error branch of Except, carrying the
  message string.
-/

/-- Model of a JavaScript runtime value, as far as the chain module inspects
one: integer numbers, strings, booleans, null, undefined, and object-kind
values identified by a reference id. -/
inductive JSVal where
  | num (n : Int)
  | str (s : String)
  | boolV (b : Bool)
  | nullV
  | undef
  | obj (id : Nat)
deriving DecidableEq

/-- Model of the JavaScript test (v instanceof Object): true exactly for
object-kind values, false for every primitive, for null and for undefined. -/
def jsInstanceofObject : JSVal → Bool
  | .obj _ => true
  | _ => false

/-- Model of JavaScript string coercion String(v) on the modelled values.
Integer numbers print in decimal, booleans as true or false, null and
undefined by their names. An object-kind value prints as the default object
tag; the chain module never reaches that case because object-kind values are
routed to the identity store first. -/
def jsToString : JSVal → String
  | .num n => toString n
  | .str s => s
  | .boolV true => "true"
  | .boolV false => "false"
  | .nullV => "null"
  | .undef => "undefined"
  | .obj _ => "[object Object]"

/-- Property names that the JavaScript in-operator finds on every plain
object through its prototype, even when the object has no own keys. A plain
object literal inherits these from the base object prototype. -/
def protoKeys : List String :=
  ["constructor", "hasOwnProperty", "isPrototypeOf", "propertyIsEnumerable",
   "toLocaleString", "toString", "valueOf", "__defineGetter__",
   "__defineSetter__", "__lookupGetter__", "__lookupSetter__", "__proto__"]

/-- Model of the JavaScript expression (k in hash) where hash is a plain
object that has received exactly the own keys in the list: the in-operator
also walks the prototype chain, so inherited property names answer true. -/
def jsIn (ownKeys : List String) (k : String) : Prop :=
  k ∈ ownKeys ∨ k ∈ protoKeys

instance (ownKeys : List String) (k : String) : Decidable (jsIn ownKeys k) :=
  inferInstanceAs (Decidable (k ∈ ownKeys ∨ k ∈ protoKeys))

/- ---------------------------------------------------------------------
UniquelyEnumerator (src/Types/_chain/UniquelyEnumerator.ts)
--------------------------------------------------------------------- -/

/-- Embedding of lines 42 to 45 of UniquelyEnumerator.ts: the value whose
membership is tested is the current upstream element, replaced by the result
of the id-extractor when one was supplied; the extractor receives the element
and the index, in that order. -/
def uniquelyCurrent (extract : Option (JSVal → JSVal → JSVal))
    (i e : JSVal) : JSVal :=
  match extract with
  | some f => f e i
  | none => e

/-- Embedding of UniquelyEnumerator.moveNext iterated to exhaustion, lines
37 to 60 of UniquelyEnumerator.ts. The arguments keysHash and objectsHash
are the two membership stores; the last argument is the remaining yield
sequence of the upstream cursor, as (index, element) pairs. Only the
deduplication key is stored; the yielded pair is always the upstream pair
itself. The primitive branch stores the key by property assignment on a
plain object, hence via string coercion and with the in-operator membership
test. -/
def uniquelyGo (extract : Option (JSVal → JSVal → JSVal)) :
    List String → List JSVal → List (JSVal × JSVal) → List (JSVal × JSVal)
  | _, _, [] => []
  | keysHash, objectsHash, (i, e) :: rest =>
    let current : JSVal := uniquelyCurrent extract i e
    if jsInstanceofObject current then
      if current ∈ objectsHash then
        uniquelyGo extract keysHash objectsHash rest
      else
        (i, e) :: uniquelyGo extract keysHash (objectsHash ++ [current]) rest
    else
      let k := jsToString current
      if jsIn keysHash k then
        uniquelyGo extract keysHash objectsHash rest
      else
        (i, e) :: uniquelyGo extract (keysHash ++ [k]) objectsHash rest

/-- Full traversal of a freshly constructed UniquelyEnumerator over the given
upstream yield sequence: both stores start empty. -/
def uniquelyList (extract : Option (JSVal → JSVal → JSVal))
    (pairs : List (JSVal × JSVal)) : List (JSVal × JSVal) :=
  uniquelyGo extract [] [] pairs

/-- Deduplication key kind: object-kind keys are compared by reference
identity, primitive keys by the string coercion of their value. -/
inductive DKey where
  | objK (v : JSVal)
  | primK (s : String)
deriving DecidableEq

/-- Deduplication key of one upstream pair: the extractor result when an
extractor is supplied, the element itself otherwise; object-kind keys are
kept as references, primitive keys as their string coercion. -/
def dedupKey (extract : Option (JSVal → JSVal → JSVal))
    (p : JSVal × JSVal) : DKey :=
  let current : JSVal := uniquelyCurrent extract p.1 p.2
  if jsInstanceofObject current then DKey.objK current
  else DKey.primK (jsToString current)

/-- Specification-level staleness test: an object key is stale when it
already occurred among the earlier keys; a primitive key is stale when its
string form is an inherited plain-object property name or already occurred
among the earlier keys. -/
def keyStale (prevKeys : List DKey) : DKey → Prop
  | .objK o => DKey.objK o ∈ prevKeys
  | .primK s => s ∈ protoKeys ∨ DKey.primK s ∈ prevKeys

instance (prevKeys : List DKey) (k : DKey) : Decidable (keyStale prevKeys k) :=
  match k with
  | .objK o => inferInstanceAs (Decidable (DKey.objK o ∈ prevKeys))
  | .primK s => inferInstanceAs (Decidable (s ∈ protoKeys ∨ DKey.primK s ∈ prevKeys))

/-- Specification-level first-occurrence filter: keep a pair exactly when its
deduplication key is not stale against the keys of all earlier pairs. -/
def uniqueSpecGo (extract : Option (JSVal → JSVal → JSVal))
    (prevKeys : List DKey) : List (JSVal × JSVal) → List (JSVal × JSVal)
  | [] => []
  | p :: rest =>
    let k := dedupKey extract p
    if keyStale prevKeys k then
      uniqueSpecGo extract (prevKeys ++ [k]) rest
    else
      p :: uniqueSpecGo extract (prevKeys ++ [k]) rest

/-- Specification-level deduplication of a full upstream yield sequence. -/
def uniqueSpec (extract : Option (JSVal → JSVal → JSVal))
    (pairs : List (JSVal × JSVal)) : List (JSVal × JSVal) :=
  uniqueSpecGo extract [] pairs

/-- Mutable state of a UniquelyEnumerator, together with an observation
counter: upstream is the remaining yield sequence of the enumerator obtained
from the previous link, keysHash and objectsHash are the two stores, and
enumFetches counts how many times previous.getEnumerator() has been invoked
on behalf of this state. -/
structure UniquelyState where
  upstream : List (JSVal × JSVal)
  keysHash : List String
  objectsHash : List JSVal
  enumFetches : Nat
deriving DecidableEq

/-- Embedding of UniquelyEnumerator.reset, lines 62 to 66: the enumerator
field is overwritten with a freshly obtained upstream enumerator (one more
call of previous.getEnumerator, replaying the full upstream sequence), and
both stores are emptied. -/
def uniquelyReset (prev : List (JSVal × JSVal)) (s : UniquelyState) : UniquelyState :=
  { upstream := prev, keysHash := [], objectsHash := [],
    enumFetches := s.enumFetches + 1 }

/-- State right after the constructor, which delegates to reset: one upstream
enumerator has been fetched. -/
def uniquelyInit (prev : List (JSVal × JSVal)) : UniquelyState :=
  uniquelyReset prev { upstream := [], keysHash := [], objectsHash := [], enumFetches := 0 }

/-- Remaining full traversal of a UniquelyEnumerator from the given state. -/
def uniquelyTraverse (extract : Option (JSVal → JSVal → JSVal))
    (s : UniquelyState) : List (JSVal × JSVal) :=
  uniquelyGo extract s.keysHash s.objectsHash s.upstream

/- ---------------------------------------------------------------------
ZippedEnumerator (src/Types/_chain/ZippedEnumerator.ts)
--------------------------------------------------------------------- -/

/-- One secondary collection handed to zip, as the moveNext loop classifies
it: an Array (read by direct indexed access), an enumerable (read through a
lazily created parallel cursor, modelled by the sequence that cursor yields),
or anything else, which the loop rejects with a TypeError. A falsy argument
also lands in the rejected branch because the enumerable test short-circuits
on it. -/
inductive ZipItem where
  | arrI (l : List JSVal)
  | enumI (l : List JSVal)
  | badI (v : JSVal)
deriving DecidableEq

/-- Model of JavaScript indexed access l[i] on an array: undefined outside
the valid range. -/
def jsIndexGet (l : List JSVal) (i : Int) : JSVal :=
  if h : 0 ≤ i ∧ i.toNat < l.length then l[i.toNat] else JSVal.undef

/-- Mutable state of a ZippedEnumerator: the remaining yield sequence of the
primary cursor, the output index (minus one before the first element), the
current tuple, and one slot per secondary holding the remaining yield
sequence of its parallel cursor once that cursor has been created. -/
structure ZippedState where
  primary : List JSVal
  index : Int
  current : Option (List JSVal)
  itemsEnumerators : List (Option (List JSVal))
deriving DecidableEq

/-- Embedding of the ZippedEnumerator constructor, lines 22 to 26 of
ZippedEnumerator.ts: it stores the collections and delegates to reset, which
only initializes plain fields; no validation of the secondary collections
happens here, so construction never raises. The result type still offers an
error branch so that the construction-time-error claim is statable. -/
def zippedConstruct (primary : List JSVal) (items : List ZipItem) :
    Except String ZippedState :=
  Except.ok { primary := primary, index := -1, current := none,
              itemsEnumerators := List.replicate items.length none }

/-- Embedding of the for-loop of ZippedEnumerator.moveNext, lines 48 to 62:
walks the secondary collections at the given output index, pairing each with
its updated parallel-cursor slot; an Array is read by indexed access, an
enumerable advances its lazily created cursor (created exactly here when the
slot is still empty), and any other argument raises the TypeError that names
its position. -/
def zipReadItems (idx : Int) : Nat → List (ZipItem × Option (List JSVal)) →
    Except String (List (JSVal × Option (List JSVal)))
  | _, [] => Except.ok []
  | pos, (item, slot) :: rest =>
    match item with
    | .arrI l =>
      (zipReadItems idx (pos + 1) rest).map
        (fun tl => (jsIndexGet l idx, slot) :: tl)
    | .enumI l =>
      match slot.getD l with
      | [] => (zipReadItems idx (pos + 1) rest).map
          (fun tl => (JSVal.undef, some []) :: tl)
      | y :: ys => (zipReadItems idx (pos + 1) rest).map
          (fun tl => (y, some ys) :: tl)
    | .badI _ =>
      Except.error ("Collection at argument " ++ toString pos ++
        " should implement Types/collection#IEnumerable")

/-- Embedding of one ZippedEnumerator.moveNext call, lines 36 to 67: when the
primary cursor is exhausted the call reports false and changes nothing;
otherwise the output index advances and the current tuple is assembled from
the primary element followed by one reading per secondary collection. -/
def zipStep (items : List ZipItem) (s : ZippedState) :
    Except String (Bool × ZippedState) :=
  match s.primary with
  | [] => Except.ok (false, s)
  | x :: rest =>
    match zipReadItems (s.index + 1) 0 (items.zip s.itemsEnumerators) with
    | Except.error msg => Except.error msg
    | Except.ok pairs =>
      Except.ok (true,
        { primary := rest, index := s.index + 1,
          current := some (x :: pairs.map Prod.fst),
          itemsEnumerators := pairs.map Prod.snd })

/-- Full traversal of a ZippedEnumerator from the given cursor position:
collects the current tuple after every successful moveNext until the primary
cursor is exhausted, or stops at the first raised TypeError. -/
def zipGo (items : List ZipItem) :
    List JSVal → Int → List (Option (List JSVal)) →
    Except String (List (List JSVal))
  | [], _, _ => Except.ok []
  | x :: rest, idx, slots =>
    match zipReadItems (idx + 1) 0 (items.zip slots) with
    | Except.error msg => Except.error msg
    | Except.ok pairs =>
      (zipGo items rest (idx + 1) (pairs.map Prod.snd)).map
        (fun tl => (x :: pairs.map Prod.fst) :: tl)

/-- Full traversal of a ZippedEnumerator from a given state. -/
def zipTraverse (items : List ZipItem) (s : ZippedState) :
    Except String (List (List JSVal)) :=
  zipGo items s.primary s.index s.itemsEnumerators

/-- Is the secondary collection one that the moveNext loop rejects? -/
def zipItemBad : ZipItem → Prop
  | .badI _ => True
  | _ => False

instance (it : ZipItem) : Decidable (zipItemBad it) :=
  match it with
  | .arrI _ => inferInstanceAs (Decidable False)
  | .enumI _ => inferInstanceAs (Decidable False)
  | .badI _ => inferInstanceAs (Decidable True)

/-- Element that a well-formed secondary collection contributes at output
position j: the j-th element for an Array by indexed access and for an
enumerable by j prior advances of its parallel cursor, undefined past the
end in both cases. -/
def zipItemAt (it : ZipItem) (j : Nat) : JSVal :=
  match it with
  | .arrI l => l.getD j JSVal.undef
  | .enumI l => l.getD j JSVal.undef
  | .badI _ => JSVal.undef

/- ---------------------------------------------------------------------
SortedEnumerator (src/Types/_chain/SortedEnumerator.ts)
--------------------------------------------------------------------- -/

/-- Comparator order used by the sort pass: an element sorts no later than
another when the comparator answers at most zero on the pair of their
values. The native Array sort of the host runtime is a stable
comparison sort (required by the language standard), which List.mergeSort
models exactly; the comparator is applied to the wrapped values.
Modelled from the spec: SortWrapper (its file is absent from src/) pairs an
element with its pre-sort index for the duration of the pass and exposes the
element value to the comparator, so comparing two wrappers compares their
element values. -/
def sortLE (cmp : JSVal → JSVal → Int) (a b : JSVal × JSVal) : Bool :=
  decide (cmp a.2 b.2 ≤ 0)

/-- Embedding of SortedEnumerator._getItems, lines 24 to 42 of
SortedEnumerator.ts. Modelled from the spec: the super call (the absent
IndexedEnumerator._getItems) pulls every (index, element) pair from the
previous link into a working sequence, which is taken here as the pairs
argument. Each pair is wrapped with its pre-sort index, the working sequence
is sorted stably by the comparator, and the output indices are the original
pre-sort indices when the upstream declared shouldSaveIndices, else the
positions 0 to n-1 in final order. -/
def sortedItems (cmp : JSVal → JSVal → Int) (shouldSaveIndices : Bool)
    (pairs : List (JSVal × JSVal)) : List (JSVal × JSVal) :=
  ((pairs.mergeSort (sortLE cmp)).mapIdx
    (fun newIdx p => (if shouldSaveIndices then p.1 else JSVal.num newIdx, p.2)))

/- ---------------------------------------------------------------------
FlattenedEnumerator (src/unnamed/part_006, second section)
--------------------------------------------------------------------- -/

/-- Element of a source as the flatten operation sees it: either an atomic
value or a container (array-like or enumerable) holding further elements. -/
inductive JSTree where
  | atom (v : JSVal)
  | nested (children : List JSTree)

mutual
/-- Modelled from the spec: FlattenedMover (its file is absent from src/)
descends depth-first into any element that is itself array-like or
enumerable and yields only the genuinely atomic elements, in order. -/
def flattenTree : JSTree → List JSVal
  | .atom v => [v]
  | .nested cs => flattenForest cs

/-- Modelled from the spec: atoms of a sequence of elements, depth-first. -/
def flattenForest : List JSTree → List JSVal
  | [] => []
  | t :: ts => flattenTree t ++ flattenForest ts
end

/-- Mutable state of a FlattenedEnumerator: the mover once created (holding
the atoms it has yet to yield) and the output index counter, minus one
before the first element. -/
structure FlattenedState where
  mover : Option (List JSVal)
  index : Int
deriving DecidableEq

/-- Embedding of FlattenedEnumerator.reset, lines 129 to 132: whatever the
old state, the mover is discarded and the counter returns to its
pre-first-element value. -/
def flattenedReset (_s : FlattenedState) : FlattenedState :=
  { mover := none, index := -1 }

/-- State right after the FlattenedEnumerator constructor, which delegates
to reset. -/
def flattenedInit : FlattenedState :=
  { mover := none, index := -1 }

/-- Embedding of FlattenedEnumerator.moveNext iterated to exhaustion from a
given state over the given upstream elements: the mover is created lazily on
the first call, and the index advances by one per successful call; yields
the (index, current) observation after each successful call. -/
def flatGo : Int → List JSVal → List (Int × JSVal)
  | _, [] => []
  | idx, v :: rest => (idx + 1, v) :: flatGo (idx + 1) rest

/-- Full remaining traversal of a FlattenedEnumerator from a given state. -/
def flattenedTraverse (prev : List JSTree) (s : FlattenedState) :
    List (Int × JSVal) :=
  flatGo s.index (match s.mover with
    | none => flattenForest prev
    | some remaining => remaining)

/- ---------------------------------------------------------------------
factory (src/unnamed/part_006, first section, lines 78 to 89)
--------------------------------------------------------------------- -/

/-- Shape of a candidate source value, as far as the factory function
inspects it: whether it is an instance of the Abstract chain class, whether
it is truthy and carries the enumerable capability flag, whether it is an
instance of Array, whether it is an instance of Object, and its string
rendering (used in the error message). -/
structure SrcVal where
  isChainLink : Bool
  hasEnumerableFlag : Bool
  isArray : Bool
  isObject : Bool
  truthy : Bool
  display : String
deriving DecidableEq

/-- Which source adapter the factory selected. -/
inductive AdapterKind where
  | enumerableK
  | arraywiseK
  | objectwiseK
deriving DecidableEq

/-- Outcome of the factory function. -/
inductive FactoryResult where
  | passthrough (s : SrcVal)
  | wrapped (k : AdapterKind) (s : SrcVal)
  | failed (msg : String)
deriving DecidableEq

/-- Embedding of the factory function, lines 78 to 89 of the chain index
module: an existing chain link passes through unchanged; otherwise a truthy
value carrying the enumerable flag is wrapped by the Enumerable adapter,
then an Array instance by the Arraywise adapter, then an Object instance by
the Objectwise adapter; any remaining value raises a TypeError whose message
interpolates the string rendering of the value. -/
def factory (source : SrcVal) : FactoryResult :=
  if source.isChainLink then FactoryResult.passthrough source
  else if source.truthy && source.hasEnumerableFlag then
    FactoryResult.wrapped AdapterKind.enumerableK source
  else if source.isArray then FactoryResult.wrapped AdapterKind.arraywiseK source
  else if source.isObject then FactoryResult.wrapped AdapterKind.objectwiseK source
  else FactoryResult.failed ("Unsupported source type \"" ++ source.display ++
    "\": only Array or Object are supported.")

/-- Modelled from the spec: every adapter class extends the Abstract chain
class and every chain link itself satisfies the enumerable capability, so
the value produced by wrapping is a chain link carrying the enumerable flag
and is an Object instance. -/
def adapterNode : SrcVal :=
  { isChainLink := true, hasEnumerableFlag := true, isArray := false,
    isObject := true, truthy := true, display := "[object Object]" }

/-- Runtime value a successful factory call hands back: the source itself on
passthrough, the freshly built adapter on a wrap, nothing on failure. -/
def factoryValue : FactoryResult → Option SrcVal
  | .passthrough s => some s
  | .wrapped _ _ => some adapterNode
  | .failed _ => none

/-- Example shape: an existing chain link (also enumerable and an Object). -/
def exLinkVal : SrcVal :=
  { isChainLink := true, hasEnumerableFlag := true, isArray := false,
    isObject := true, truthy := true, display := "[object Object]" }

/-- Example shape: a plain enumerable collection (not a chain link). -/
def exEnumVal : SrcVal :=
  { isChainLink := false, hasEnumerableFlag := true, isArray := false,
    isObject := true, truthy := true, display := "[object Object]" }

/-- Example shape: an Array instance (also an Object, no enumerable flag). -/
def exArrVal : SrcVal :=
  { isChainLink := false, hasEnumerableFlag := false, isArray := true,
    isObject := true, truthy := true, display := "1,2" }

/-- Example shape: a plain key-value object. -/
def exObjVal : SrcVal :=
  { isChainLink := false, hasEnumerableFlag := false, isArray := false,
    isObject := true, truthy := true, display := "[object Object]" }

/-- Example shape: the primitive number 42. -/
def exPrimVal : SrcVal :=
  { isChainLink := false, hasEnumerableFlag := false, isArray := false,
    isObject := false, truthy := true, display := "42" }

/- ---------------------------------------------------------------------
Objectwise enumerator constructor (src/Types/_chain/ZippedEnumerator.ts,
second section, lines 119 to 131)
--------------------------------------------------------------------- -/

/-- Embedding of the Objectwise constructor: an undefined argument is
replaced by a fresh empty object (whose key list is empty); any other value
that is not an Object instance raises; an Object instance is stored together
with its own enumerable keys and values, supplied here by the heap map from
reference ids to key-value lists. -/
def objectwiseConstruct (heap : Nat → List (String × JSVal)) (items : JSVal) :
    Except String (List (String × JSVal)) :=
  if items = JSVal.undef then Except.ok []
  else
    match items with
    | JSVal.obj id => Except.ok (heap id)
    | _ => Except.error "Argument items should be an instance of Object"

/-- Expected zip output: one tuple per primary element, pairing the primary
element at each position with the reading of every secondary collection at
that position. -/
def zipExpect (items : List ZipItem) : Nat → List JSVal → List (List JSVal)
  | _, [] => []
  | j, x :: rest =>
    (x :: items.map (fun it => zipItemAt it j)) :: zipExpect items (j + 1) rest

/-- Key extractor of the stability example in the spec: the upstream
elements are three objects carrying an attribute k, modelled by references
70 and 71 (k = 1) and 72 (k = 0). -/
def exampleK : JSVal → Int
  | .obj 70 => 1
  | .obj 71 => 1
  | _ => 0

/-- Comparator of the stability example: compares elements by their k
attribute. -/
def exampleCmp (a b : JSVal) : Int := exampleK a - exampleK b

/- ---------------------------------------------------------------------
Theorems
--------------------------------------------------------------------- -/

/-- Helper: the iterated moveNext of UniquelyEnumerator computes the
first-occurrence filter by deduplication key, for any pair of store contents
matching the key history. -/
theorem uniquelyGo_eq_spec (extract : Option (JSVal → JSVal → JSVal)) :
    ∀ (l : List (JSVal × JSVal)) (keys : List String) (objs : List JSVal)
      (prevKeys : List DKey),
    (∀ s : String, jsIn keys s ↔ keyStale prevKeys (DKey.primK s)) →
    (∀ o : JSVal, o ∈ objs ↔ keyStale prevKeys (DKey.objK o)) →
    uniquelyGo extract keys objs l = uniqueSpecGo extract prevKeys l
  | [], _, _, _, _, _ => rfl
  | (i, e) :: rest, keys, objs, prevKeys, hprim, hobj => by
    simp only [uniquelyGo, uniqueSpecGo]
    have hkey : dedupKey extract (i, e) =
        (if jsInstanceofObject (uniquelyCurrent extract i e) then
          DKey.objK (uniquelyCurrent extract i e)
        else DKey.primK (jsToString (uniquelyCurrent extract i e))) := rfl
    set c : JSVal := uniquelyCurrent extract i e with hc
    by_cases hob : jsInstanceofObject c = true
    · rw [hkey]
      simp only [hob, if_true]
      by_cases hmem : c ∈ objs
      · rw [if_pos hmem, if_pos ((hobj c).mp hmem)]
        exact uniquelyGo_eq_spec extract rest keys objs (prevKeys ++ [DKey.objK c])
          (fun s => by
            refine (hprim s).trans ?_
            simp only [keyStale, List.mem_append, List.mem_singleton]
            tauto)
          (fun o => by
            have h := hobj o
            have hcm := (hobj c).mp hmem
            simp only [keyStale, List.mem_append, List.mem_singleton,
              DKey.objK.injEq] at h hcm ⊢
            by_cases ho : o = c
            · subst ho; tauto
            · tauto)
      · rw [if_neg hmem, if_neg (fun hx => hmem ((hobj c).mpr hx))]
        congr 1
        exact uniquelyGo_eq_spec extract rest keys (objs ++ [c]) (prevKeys ++ [DKey.objK c])
          (fun s => by
            refine (hprim s).trans ?_
            simp only [keyStale, List.mem_append, List.mem_singleton]
            tauto)
          (fun o => by
            have h := hobj o
            simp only [keyStale] at h ⊢
            simp only [List.mem_append, List.mem_singleton, DKey.objK.injEq]
            tauto)
    · rw [hkey]
      simp only [hob, Bool.false_eq_true, if_false]
      by_cases hin : jsIn keys (jsToString c)
      · rw [if_pos hin, if_pos ((hprim (jsToString c)).mp hin)]
        exact uniquelyGo_eq_spec extract rest keys objs
          (prevKeys ++ [DKey.primK (jsToString c)])
          (fun s => by
            have h := hprim s
            have hc2 := (hprim (jsToString c)).mp hin
            simp only [keyStale, jsIn, List.mem_append, List.mem_singleton,
              DKey.primK.injEq] at h hc2 ⊢
            by_cases hs : s = jsToString c
            · subst hs; tauto
            · tauto)
          (fun o => by
            have h := hobj o
            simp only [keyStale, List.mem_append, List.mem_singleton] at h ⊢
            constructor
            · intro hx; exact Or.inl (h.mp hx)
            · intro hx
              rcases hx with hx | hx
              · exact h.mpr hx
              · exact absurd hx (by simp))
      · rw [if_neg hin, if_neg (fun hx => hin ((hprim (jsToString c)).mpr hx))]
        congr 1
        exact uniquelyGo_eq_spec extract rest (keys ++ [jsToString c]) objs
          (prevKeys ++ [DKey.primK (jsToString c)])
          (fun s => by
            have h := hprim s
            simp only [keyStale, jsIn, List.mem_append, List.mem_singleton,
              DKey.primK.injEq] at h ⊢
            by_cases hs : s = jsToString c
            · subst hs; tauto
            · tauto)
          (fun o => by
            have h := hobj o
            simp only [keyStale, List.mem_append, List.mem_singleton] at h ⊢
            constructor
            · intro hx; exact Or.inl (h.mp hx)
            · intro hx
              rcases hx with hx | hx
              · exact h.mpr hx
              · exact absurd hx (by simp))

/-- Helper: full traversal of a fresh UniquelyEnumerator equals the
specification-level first-occurrence filter. -/
theorem uniquelyList_eq_uniqueSpec (extract : Option (JSVal → JSVal → JSVal))
    (pairs : List (JSVal × JSVal)) :
    uniquelyList extract pairs = uniqueSpec extract pairs :=
  uniquelyGo_eq_spec extract pairs [] [] []
    (fun s => by simp [jsIn, keyStale])
    (fun o => by simp [keyStale])

/-- Claim C1 counterexample: without an id-extractor, uniquely over the
upstream sequence 1, 1, 2, then the string "1" (positional indices 0 to 3)
yields only the elements 1 and 2: the string "1" is deduplicated against the
numeric 1 because the primitive store keys are string-coerced, contradicting
the claimed output 1, 2, "1". -/
theorem c1_unique_value_kind_counterexample :
    (uniquelyList none [(JSVal.num 0, JSVal.num 1), (JSVal.num 1, JSVal.num 1),
        (JSVal.num 2, JSVal.num 2), (JSVal.num 3, JSVal.str "1")]).map Prod.snd
      = [JSVal.num 1, JSVal.num 2] ∧
    (uniquelyList none [(JSVal.num 0, JSVal.num 1), (JSVal.num 1, JSVal.num 1),
        (JSVal.num 2, JSVal.num 2), (JSVal.num 3, JSVal.str "1")]).map Prod.snd
      ≠ [JSVal.num 1, JSVal.num 2, JSVal.str "1"] := by
  exact ⟨by decide, by decide⟩

/-- Claim C1 (amended): without an id-extractor, the unique operation yields
each upstream element the first time its deduplication key occurs and skips
later occurrences, where object-kind elements are keyed by reference
identity only (never structural equality) and primitive elements by the
string coercion of their value over a plain-object store (so a primitive
whose string form is an inherited plain-object property name is always
skipped, and the numeric 1 dedupes against the string "1"): unique over
1, 1, 2, "1" yields 1, 2; unique over objA, objA, objB yields objA, objB;
and unique over two distinct object instances with equal contents yields
both. -/
theorem c1_unique_dedup_amended :
    (∀ pairs : List (JSVal × JSVal), uniquelyList none pairs = uniqueSpec none pairs) ∧
    (uniquelyList none [(JSVal.num 0, JSVal.num 1), (JSVal.num 1, JSVal.num 1),
        (JSVal.num 2, JSVal.num 2), (JSVal.num 3, JSVal.str "1")]).map Prod.snd
      = [JSVal.num 1, JSVal.num 2] ∧
    uniquelyList none [(JSVal.num 0, JSVal.obj 7), (JSVal.num 1, JSVal.obj 7),
        (JSVal.num 2, JSVal.obj 8)]
      = [(JSVal.num 0, JSVal.obj 7), (JSVal.num 2, JSVal.obj 8)] ∧
    uniquelyList none [(JSVal.num 0, JSVal.obj 0), (JSVal.num 1, JSVal.obj 1)]
      = [(JSVal.num 0, JSVal.obj 0), (JSVal.num 1, JSVal.obj 1)] := by
  refine ⟨fun pairs => uniquelyList_eq_uniqueSpec none pairs, by decide, by decide, by decide⟩

/-- Helper: the iterated moveNext of UniquelyEnumerator yields a subsequence
of the upstream yield sequence, whatever the stores hold. -/
theorem uniquelyGo_sublist (extract : Option (JSVal → JSVal → JSVal)) :
    ∀ (l : List (JSVal × JSVal)) (keys : List String) (objs : List JSVal),
    (uniquelyGo extract keys objs l).Sublist l
  | [], _, _ => List.Sublist.refl []
  | (i, e) :: rest, keys, objs => by
    simp only [uniquelyGo]
    set c : JSVal := uniquelyCurrent extract i e with hc
    by_cases hob : jsInstanceofObject c = true
    · simp only [hob, if_true]
      by_cases hmem : c ∈ objs
      · rw [if_pos hmem]
        exact (uniquelyGo_sublist extract rest keys objs).cons _
      · rw [if_neg hmem]
        exact (uniquelyGo_sublist extract rest keys (objs ++ [c])).cons₂ _
    · simp only [hob, Bool.false_eq_true, if_false]
      by_cases hin : jsIn keys (jsToString c)
      · rw [if_pos hin]
        exact (uniquelyGo_sublist extract rest keys objs).cons _
      · rw [if_neg hin]
        exact (uniquelyGo_sublist extract rest (keys ++ [jsToString c]) objs).cons₂ _

/-- Claim C10: with any supplied id-extractor, the sequence of (index,
element) observations of the Uniquely cursor is a subsequence of the
upstream observations: every yielded current element and current index is
exactly the upstream pair, and the extractor result is never yielded. -/
theorem c10_unique_yields_upstream_pairs (extract : JSVal → JSVal → JSVal)
    (pairs : List (JSVal × JSVal)) :
    (uniquelyList (some extract) pairs).Sublist pairs :=
  uniquelyGo_sublist (some extract) pairs [] []

/-- Claim C3 counterexample: reset does not reuse the existing upstream
cursor: it invokes previous.getEnumerator() again, so the fetch count grows
by one, contradicting the claim that no new upstream cursor is obtained. -/
theorem c3_reset_counterexample :
    (uniquelyReset [(JSVal.num 0, JSVal.num 1)]
        (uniquelyInit [(JSVal.num 0, JSVal.num 1)])).enumFetches
      ≠ (uniquelyInit [(JSVal.num 0, JSVal.num 1)]).enumFetches := by
  decide

/-- Claim C3 (amended): reset empties both membership stores and replaces
the upstream cursor with a freshly obtained one (one more
previous.getEnumerator() call) positioned before the first upstream element,
so that a subsequent full traversal reproduces exactly the traversal of a
freshly constructed Uniquely cursor. -/
theorem c3_reset_amended (extract : Option (JSVal → JSVal → JSVal))
    (prev : List (JSVal × JSVal)) (s : UniquelyState) :
    (uniquelyReset prev s).keysHash = [] ∧
    (uniquelyReset prev s).objectsHash = [] ∧
    (uniquelyReset prev s).upstream = prev ∧
    (uniquelyReset prev s).enumFetches = s.enumFetches + 1 ∧
    uniquelyTraverse extract (uniquelyReset prev s)
      = uniquelyTraverse extract (uniquelyInit prev) ∧
    uniquelyTraverse extract (uniquelyReset prev s) = uniquelyList extract prev :=
  ⟨rfl, rfl, rfl, rfl, rfl, rfl⟩

theorem jsIndexGet_natCast (l : List JSVal) (j : Nat) :
    jsIndexGet l ((j : Int)) = l.getD j JSVal.undef := by
  unfold jsIndexGet
  by_cases h : j < l.length
  · rw [dif_pos ⟨by omega, by simpa using h⟩]
    simp [List.getD_eq_getElem?_getD, List.getElem?_eq_getElem, h]
  · rw [dif_neg (by simp; omega)]
    rw [List.getD_eq_getElem?_getD, List.getElem?_eq_none (by omega)]
    rfl

theorem zipReadItems_first_bad :
    ∀ (l : List (ZipItem × Option (List JSVal))) (idx : Int) (pos i : Nat)
      (hi : i < l.length),
    zipItemBad ((l.get ⟨i, hi⟩).1) →
    (∀ j (hj : j < i), ¬ zipItemBad ((l.get ⟨j, lt_trans hj hi⟩).1)) →
    zipReadItems idx pos l = Except.error ("Collection at argument " ++
      toString (pos + i) ++ " should implement Types/collection#IEnumerable")
  | [], _, _, i, hi, _, _ => absurd hi (by simp)
  | (item, slot) :: rest, idx, pos, 0, hi, hbad, _ => by
    match item, hbad with
    | ZipItem.badI v, _ =>
      simp only [zipReadItems, Nat.add_zero]
  | (item, slot) :: rest, idx, pos, i + 1, hi, hbad, hmin => by
    have hhead : ¬ zipItemBad item := hmin 0 (Nat.succ_pos i)
    have hrest := zipReadItems_first_bad rest idx (pos + 1) i
      (by simpa using Nat.lt_of_succ_lt_succ hi) hbad
      (fun j hj => hmin (j + 1) (Nat.succ_lt_succ hj))
    have harith : pos + 1 + i = pos + (i + 1) := by omega
    match item, hhead with
    | ZipItem.arrI la, _ =>
      simp only [zipReadItems, hrest, Except.map, harith]
    | ZipItem.enumI le2, _ =>
      simp only [zipReadItems]
      match h : slot.getD le2 with
      | [] => simp only [hrest, Except.map, harith]
      | y :: ys => simp only [hrest, Except.map, harith]
    | ZipItem.badI v, hh => exact absurd trivial hh

theorem zipReadItems_good (j : Nat) :
    ∀ (items : List ZipItem) (slots : List (Option (List JSVal))) (pos : Nat),
    (∀ it ∈ items, ¬ zipItemBad it) →
    List.Forall₂ (fun it slot => ∀ el, it = ZipItem.enumI el →
      Option.getD slot el = el.drop j) items slots →
    zipReadItems ((j : Int)) pos (items.zip slots)
      = Except.ok ((items.zip slots).map (fun q =>
          (zipItemAt q.1 j, match q.1 with
            | ZipItem.enumI el => some (el.drop (j + 1))
            | _ => q.2)))
  | [], slots, pos, _, hf => by
    cases hf
    rfl
  | item :: items, _, pos, hgood, @List.Forall₂.cons _ _ _ _ slot _ slots hrel hf => by
    have hrec := zipReadItems_good j items slots (pos + 1)
      (fun it hit => hgood it (List.mem_cons_of_mem _ hit)) hf
    simp only [List.zip] at hrec
    have hhead : ¬ zipItemBad item := hgood item (List.mem_cons_self _ _)
    match item, hhead with
    | ZipItem.arrI la, _ =>
      simp only [List.zip, List.zipWith_cons_cons, zipReadItems, hrec, Except.map,
        List.map_cons, zipItemAt, jsIndexGet_natCast]
    | ZipItem.enumI el, _ =>
      have hslot : Option.getD slot el = el.drop j := hrel el rfl
      simp only [List.zip, List.zipWith_cons_cons, zipReadItems, hrec, Except.map,
        List.map_cons, zipItemAt]
      match hd : el.drop j with
      | [] =>
        rw [hslot, hd]
        have hlen : el.length ≤ j := by
          have := List.drop_eq_nil_iff.mp hd
          simpa using this
        have : el.drop (j + 1) = [] := by
          apply List.drop_eq_nil_of_le
          omega
        rw [this]
        have : el.getD j JSVal.undef = JSVal.undef := by
          rw [List.getD_eq_getElem?_getD, List.getElem?_eq_none (by omega)]
          rfl
        rw [this]
      | y :: ys =>
        rw [hslot, hd]
        have hjlt : j < el.length := by
          by_contra hc
          rw [List.drop_eq_nil_of_le (by omega)] at hd
          exact absurd hd (by simp)
        have hy : el.getD j JSVal.undef = y := by
          rw [List.getD_eq_getElem?_getD]
          have h0 : el[j]? = (el.drop j)[0]? := by
            rw [List.getElem?_drop, Nat.add_zero]
          rw [h0, hd]
          simp
        have hys : el.drop (j + 1) = ys := by
          have h1 : el.drop (j + 1) = (el.drop j).drop 1 := by
            rw [List.drop_drop, Nat.add_comm]
          rw [h1, hd]
          rfl
        rw [hy, hys]
    | ZipItem.badI v, hh => exact absurd trivial hh

theorem zipSlots_step (j : Nat) :
    ∀ (items : List ZipItem) (slots : List (Option (List JSVal))),
    List.Forall₂ (fun it slot => ∀ el, it = ZipItem.enumI el →
      Option.getD slot el = el.drop j) items slots →
    List.Forall₂ (fun it slot => ∀ el, it = ZipItem.enumI el →
      Option.getD slot el = el.drop (j + 1)) items
      (((items.zip slots).map (fun q =>
          (zipItemAt q.1 j, match q.1 with
            | ZipItem.enumI el => some (el.drop (j + 1))
            | _ => q.2))).map Prod.snd)
  | [], _, hf => by cases hf; exact List.Forall₂.nil
  | item :: items, _, @List.Forall₂.cons _ _ _ _ slot _ slots hrel hf => by
    simp only [List.zip, List.zipWith_cons_cons, List.map_cons]
    refine List.Forall₂.cons ?_ (by simpa [List.zip] using zipSlots_step j items slots hf)
    intro el hel
    subst hel
    simp

theorem zipGo_good (items : List ZipItem)
    (hgood : ∀ it ∈ items, ¬ zipItemBad it) :
    ∀ (p : List JSVal) (j : Nat) (slots : List (Option (List JSVal))),
    List.Forall₂ (fun it slot => ∀ el, it = ZipItem.enumI el →
      Option.getD slot el = el.drop j) items slots →
    zipGo items p ((j : Int) - 1) slots = Except.ok (zipExpect items j p)
  | [], _, _, _ => rfl
  | x :: rest, j, slots, hf => by
    have hread := zipReadItems_good j items slots 0 hgood hf
    have hcast : ((j : Int) - 1) + 1 = (j : Int) := by omega
    have hrec := zipGo_good items hgood rest (j + 1)
      (((items.zip slots).map (fun q =>
          (zipItemAt q.1 j, match q.1 with
            | ZipItem.enumI el => some (el.drop (j + 1))
            | _ => q.2))).map Prod.snd)
      (zipSlots_step j items slots hf)
    have hcast2 : ((j : Int) + 1) - 1 = (j : Int) := by omega
    simp only [zipGo, hcast, hread]
    have hfst : ((items.zip slots).map (fun q =>
        (zipItemAt q.1 j, match q.1 with
          | ZipItem.enumI el => some (el.drop (j + 1))
          | _ => q.2))).map Prod.fst = items.map (fun it => zipItemAt it j) := by
      rw [List.map_map]
      have hlen : slots.length = items.length := (List.Forall₂.length_eq hf).symm
      clear hread hrec hf hgood
      induction items generalizing slots with
      | nil => simp
      | cons a as ih =>
        match slots, hlen with
        | b :: bs, hlen =>
          simp only [List.zip, List.zipWith_cons_cons, List.map_cons, Function.comp]
          rw [show (as.zipWith Prod.mk bs) = as.zip bs from rfl]
          congr 1
          exact ih bs (by simpa using hlen)
    rw [hfst]
    rw [show (((j + 1 : Nat) : Int) - 1) = (j : Int) by push_cast; ring] at hrec
    rw [hrec]
    rfl

theorem zipExpect_length (items : List ZipItem) :
    ∀ (j : Nat) (p : List JSVal), (zipExpect items j p).length = p.length
  | _, [] => rfl
  | j, _ :: rest => by
    simp only [zipExpect, List.length_cons, zipExpect_length items (j + 1) rest]

theorem zipExpect_getElem (items : List ZipItem) :
    ∀ (p : List JSVal) (j i : Nat) (hi : i < p.length),
    (zipExpect items j p)[i]? =
      some ((p.get ⟨i, hi⟩) :: items.map (fun it => zipItemAt it (j + i)))
  | [], _, i, hi => absurd hi (by simp)
  | x :: rest, j, 0, _ => by simp [zipExpect]
  | x :: rest, j, i + 1, hi => by
    have := zipExpect_getElem items rest (j + 1) i
      (by simp only [List.length_cons] at hi; omega)
    simp only [zipExpect, List.getElem?_cons_succ, this, List.get_cons_succ]
    have harith : j + 1 + i = j + (i + 1) := by omega
    rw [harith]

/-- Claim C2 (amended): a secondary collection that is neither array-like
nor enumerable does not make construction of the zipped link fail:
construction always succeeds, and the TypeError naming the first offending
argument position is raised by the first moveNext call that finds a primary
element; when the primary chain is empty the traversal completes without any
error. -/
theorem c2_zip_error_first_traversal_amended (primary : List JSVal)
    (items : List ZipItem) (i : Nat) (x : JSVal) (rest : List JSVal)
    (hi : i < items.length)
    (hbad : zipItemBad (items.get ⟨i, hi⟩))
    (hmin : ∀ j (hj : j < i), ¬ zipItemBad (items.get ⟨j, lt_trans hj hi⟩))
    (hp : primary = x :: rest) :
    zippedConstruct primary items = Except.ok
      { primary := primary, index := -1, current := none,
        itemsEnumerators := List.replicate items.length none } ∧
    zipStep items
        { primary := primary, index := -1, current := none,
          itemsEnumerators := List.replicate items.length none }
      = Except.error ("Collection at argument " ++ toString i ++
          " should implement Types/collection#IEnumerable") ∧
    zipTraverse items
        { primary := [], index := -1, current := none,
          itemsEnumerators := List.replicate items.length none }
      = Except.ok [] := by
  refine ⟨rfl, ?_, rfl⟩
  subst hp
  simp only [zipStep]
  have hlen : i < (items.zip (List.replicate items.length
      (none : Option (List JSVal)))).length := by
    simp [List.length_zip]
    omega
  have hget : ((items.zip (List.replicate items.length
      (none : Option (List JSVal)))).get ⟨i, hlen⟩).1 = items.get ⟨i, hi⟩ := by
    simp [List.get_eq_getElem, List.getElem_zip]
  have herr := zipReadItems_first_bad
    (items.zip (List.replicate items.length none)) (-1 + 1) 0 i hlen
    (by rw [hget]; exact hbad)
    (fun j hj => by
      have hg : ((items.zip (List.replicate items.length
          (none : Option (List JSVal)))).get ⟨j, lt_trans hj hlen⟩).1
          = items.get ⟨j, lt_trans hj hi⟩ := by
        simp [List.get_eq_getElem, List.getElem_zip]
      rw [hg]
      exact hmin j hj)
  rw [herr]
  simp

/-- Helper: the freshly reset parallel-cursor slots satisfy the cursor
position invariant at step zero. -/
theorem zipInitSlots (items : List ZipItem) :
    List.Forall₂ (fun it slot => ∀ el, it = ZipItem.enumI el →
      Option.getD slot el = el.drop 0) items
      (List.replicate items.length (none : Option (List JSVal))) := by
  induction items with
  | nil => exact List.Forall₂.nil
  | cons a as ih =>
    simp only [List.length_cons, List.replicate]
    exact List.Forall₂.cons (fun el hel => by subst hel; simp) ih

/-- Claim C5: for every primary chain and secondary collections that are
arrays or enumerables, the zip traversal succeeds and yields one tuple per
primary element: the tuple at position i is the primary element at i
followed by the i-th element of each secondary in argument order, undefined
for any secondary shorter than i plus 1; the zipped cursor is exhausted
exactly when the primary is, whatever the secondary lengths. -/
theorem c5_zip_primary_driven (primary : List JSVal) (items : List ZipItem)
    (hgood : ∀ it ∈ items, ¬ zipItemBad it) :
    zippedConstruct primary items = Except.ok
      { primary := primary, index := -1, current := none,
        itemsEnumerators := List.replicate items.length none } ∧
    zipTraverse items
        { primary := primary, index := -1, current := none,
          itemsEnumerators := List.replicate items.length none }
      = Except.ok (zipExpect items 0 primary) ∧
    (zipExpect items 0 primary).length = primary.length ∧
    (∀ i (hi : i < primary.length), (zipExpect items 0 primary)[i]? =
      some ((primary.get ⟨i, hi⟩) :: items.map (fun it => zipItemAt it i))) := by
  refine ⟨rfl, ?_, zipExpect_length items 0 primary, ?_⟩
  · have h := zipGo_good items hgood primary 0
      (List.replicate items.length none) (zipInitSlots items)
    rw [show ((0 : Nat) : Int) - 1 = (-1 : Int) by ring] at h
    exact h
  · intro i hi
    have h := zipExpect_getElem items primary 0 i hi
    simpa using h

/-- Claim C5 witness: zip of 1, 2, 3 with the array a, b yields the pairs
(1, a), (2, b), (3, undefined). -/
theorem c5_zip_witness :
    (∀ it ∈ [ZipItem.arrI [JSVal.str "a", JSVal.str "b"]], ¬ zipItemBad it) ∧
    zipTraverse [ZipItem.arrI [JSVal.str "a", JSVal.str "b"]]
        { primary := [JSVal.num 1, JSVal.num 2, JSVal.num 3], index := -1,
          current := none, itemsEnumerators := [none] }
      = Except.ok [[JSVal.num 1, JSVal.str "a"], [JSVal.num 2, JSVal.str "b"],
          [JSVal.num 3, JSVal.undef]] :=
  ⟨by decide, by
    have h := (c5_zip_primary_driven [JSVal.num 1, JSVal.num 2, JSVal.num 3]
      [ZipItem.arrI [JSVal.str "a", JSVal.str "b"]] (by decide)).2.1
    exact h⟩

/-- Claim C2 witness: at the concrete zip of the one-element primary 1 with
the single secondary null, the first moveNext raises the TypeError naming
argument position 0. -/
theorem c2_zip_witness :
    (0 : Nat) < ([ZipItem.badI JSVal.nullV] : List ZipItem).length ∧
    zipStep [ZipItem.badI JSVal.nullV]
        { primary := [JSVal.num 1], index := -1, current := none,
          itemsEnumerators := [none] }
      = Except.error
          "Collection at argument 0 should implement Types/collection#IEnumerable" :=
  ⟨by decide, by
    have h := (c2_zip_error_first_traversal_amended [JSVal.num 1]
      [ZipItem.badI JSVal.nullV] 0 (JSVal.num 1) [] (by decide) (by decide)
      (fun j hj => absurd hj (by omega)) rfl).2.1
    exact h⟩

/-- Claim C2 counterexample: constructing the zipped link over primary 1
with the non-enumerable secondary null succeeds (returns a state, raises
nothing), contradicting the claim that the error is raised at construction
time before any traversal step; the error only appears at the first
moveNext. -/
theorem c2_zip_construction_counterexample :
    zippedConstruct [JSVal.num 1] [ZipItem.badI JSVal.nullV]
      = Except.ok
          { primary := [JSVal.num 1], index := -1, current := none,
            itemsEnumerators := [none] } ∧
    zipStep [ZipItem.badI JSVal.nullV]
        { primary := [JSVal.num 1], index := -1, current := none,
          itemsEnumerators := [none] }
      = Except.error
          "Collection at argument 0 should implement Types/collection#IEnumerable" := by
  exact ⟨rfl, rfl⟩

/-- Helper: the element order produced by the Sorted link does not depend
on the index assignment mode. -/
theorem sortedItems_map_snd (cmp : JSVal → JSVal → Int) (save : Bool)
    (pairs : List (JSVal × JSVal)) :
    (sortedItems cmp save pairs).map Prod.snd
      = (pairs.mergeSort (sortLE cmp)).map Prod.snd := by
  simp only [sortedItems, List.mapIdx_eq_enum_map, List.map_map]
  have : (Function.uncurry fun newIdx p =>
      ((if save then p.1 else JSVal.num newIdx), p.2) : Nat × (JSVal × JSVal) → JSVal × JSVal)
      = fun q => ((if save then q.2.1 else JSVal.num q.1), q.2.2) := by
    funext q
    cases q
    rfl
  rw [this]
  have h2 : (Prod.snd ∘ fun q : Nat × (JSVal × JSVal) =>
      ((if save then q.2.1 else JSVal.num q.1), q.2.2)) = Prod.snd ∘ Prod.snd := by
    funext q
    rfl
  rw [h2]
  rw [show (Prod.snd ∘ Prod.snd : Nat × (JSVal × JSVal) → JSVal)
    = Prod.snd ∘ (Prod.snd : Nat × (JSVal × JSVal) → JSVal × JSVal) from rfl]
  rw [← List.map_map, List.enum_map_snd]

/-- Claim C6: after the sort pass, when the upstream declared
shouldSaveIndices the output is exactly the stably sorted (index, element)
sequence, each element keeping its original pre-sort index; otherwise the
output indices are renumbered 0 to n-1 in final sorted order while the
elements are the same stably sorted sequence. -/
theorem c6_sorted_index_assignment (cmp : JSVal → JSVal → Int)
    (pairs : List (JSVal × JSVal)) :
    sortedItems cmp true pairs = pairs.mergeSort (sortLE cmp) ∧
    (sortedItems cmp false pairs).map Prod.fst
      = (List.range pairs.length).map (fun n : Nat => JSVal.num (n : Int)) ∧
    (sortedItems cmp false pairs).map Prod.snd
      = (pairs.mergeSort (sortLE cmp)).map Prod.snd := by
  refine ⟨?_, ?_, sortedItems_map_snd cmp false pairs⟩
  · simp only [sortedItems, if_true, List.mapIdx_eq_enum_map]
    have : (Function.uncurry fun newIdx p => (p.1, p.2)
        : Nat × (JSVal × JSVal) → JSVal × JSVal) = Prod.snd := by
      funext q
      cases q with
      | mk a b => cases b; rfl
    rw [this, List.enum_map_snd]
  · simp only [sortedItems, Bool.false_eq_true, if_false, List.mapIdx_eq_enum_map,
      List.map_map]
    have : (Prod.fst ∘ Function.uncurry fun newIdx p => (JSVal.num newIdx, p.2)
        : Nat × (JSVal × JSVal) → JSVal)
        = (fun n : Nat => JSVal.num (n : Int)) ∘ Prod.fst := by
      funext q
      cases q
      rfl
    rw [this, ← List.map_map, List.enum_map_fst, List.length_mergeSort]

/-- Claim C7: for every comparator that is transitive and total on the
at-most-zero relation, two upstream entries whose values compare equal keep
their upstream relative order in the sorted output: the sort pass is
stable. -/
theorem c7_sort_stable (cmp : JSVal → JSVal → Int) (save : Bool)
    (pairs : List (JSVal × JSVal))
    (htrans : ∀ a b c : JSVal, cmp a b ≤ 0 → cmp b c ≤ 0 → cmp a c ≤ 0)
    (htot : ∀ a b : JSVal, cmp a b ≤ 0 ∨ cmp b a ≤ 0)
    (x y : JSVal × JSVal)
    (heq : cmp x.2 y.2 = 0)
    (hsub : [x, y].Sublist pairs) :
    [x.2, y.2].Sublist ((sortedItems cmp save pairs).map Prod.snd) := by
  rw [sortedItems_map_snd]
  have h := @List.pair_sublist_mergeSort _ (sortLE cmp) x y pairs
    (fun a b c hab hbc => by
      simp only [sortLE, decide_eq_true_eq] at hab hbc ⊢
      exact htrans a.2 b.2 c.2 hab hbc)
    (fun a b => by
      simp only [sortLE, Bool.or_eq_true, decide_eq_true_eq]
      exact htot a.2 b.2)
    (by simp only [sortLE, decide_eq_true_eq]; omega)
    hsub
  have h2 := h.map Prod.snd
  simpa using h2

/-- Claim C7 witness: sorting the spec example (three objects with k
attributes 1, 1, 0, in that upstream order) by k keeps the two k = 1
objects in upstream order and produces the k = 0 object first: the output
value order is exactly 72, 70, 71. -/
theorem c7_sort_stable_witness :
    (∀ a b c : JSVal, exampleCmp a b ≤ 0 → exampleCmp b c ≤ 0 → exampleCmp a c ≤ 0) ∧
    (∀ a b : JSVal, exampleCmp a b ≤ 0 ∨ exampleCmp b a ≤ 0) ∧
    exampleCmp (JSVal.obj 70) (JSVal.obj 71) = 0 ∧
    [JSVal.obj 70, JSVal.obj 71].Sublist
      ((sortedItems exampleCmp false
        [(JSVal.num 0, JSVal.obj 70), (JSVal.num 1, JSVal.obj 71),
         (JSVal.num 2, JSVal.obj 72)]).map Prod.snd) ∧
    (sortedItems exampleCmp false
        [(JSVal.num 0, JSVal.obj 70), (JSVal.num 1, JSVal.obj 71),
         (JSVal.num 2, JSVal.obj 72)]).map Prod.snd
      = [JSVal.obj 72, JSVal.obj 70, JSVal.obj 71] := by
  have htrans : ∀ a b c : JSVal,
      exampleCmp a b ≤ 0 → exampleCmp b c ≤ 0 → exampleCmp a c ≤ 0 := by
    intro a b c h1 h2
    unfold exampleCmp at h1 h2 ⊢
    omega
  have htot : ∀ a b : JSVal, exampleCmp a b ≤ 0 ∨ exampleCmp b a ≤ 0 := by
    intro a b
    unfold exampleCmp
    omega
  refine ⟨htrans, htot, by decide, ?_, ?_⟩
  · exact c7_sort_stable exampleCmp false
      [(JSVal.num 0, JSVal.obj 70), (JSVal.num 1, JSVal.obj 71),
       (JSVal.num 2, JSVal.obj 72)]
      htrans htot (JSVal.num 0, JSVal.obj 70) (JSVal.num 1, JSVal.obj 71)
      (by decide) (by decide)
  · simp [sortedItems, sortLE, exampleCmp, exampleK, List.mergeSort,
      List.splitInTwo, List.splitAt, List.splitAt.go, List.merge]

/-- Helper: the flattened traversal yields exactly the depth-first atoms. -/
theorem flatGo_map_snd : ∀ (l : List JSVal) (idx : Int),
    (flatGo idx l).map Prod.snd = l
  | [], _ => rfl
  | v :: rest, idx => by
    simp only [flatGo, List.map_cons, flatGo_map_snd rest (idx + 1)]

/-- Helper: the n-th observation of the flattened counter carries index n
offset by the starting counter value. -/
theorem flatGo_getElem : ∀ (l : List JSVal) (idx : Int) (i : Nat) (hi : i < l.length),
    (flatGo idx l)[i]? = some (idx + 1 + (i : Int), l.get ⟨i, hi⟩)
  | v :: rest, idx, 0, _ => by simp [flatGo]
  | v :: rest, idx, i + 1, hi => by
    have h := flatGo_getElem rest (idx + 1) i
      (by simp only [List.length_cons] at hi; omega)
    simp only [flatGo, List.getElem?_cons_succ, h, List.get_cons_succ]
    have : idx + 1 + 1 + (i : Int) = idx + 1 + ((i + 1 : Nat) : Int) := by
      push_cast
      ring
    rw [this]

/-- Claim C8: the flatten operation numbers its output with a fresh
monotonically increasing counter: reset returns any state to the
pre-first-element state, a fresh traversal yields the depth-first atoms with
the observation after the n-th successful advance carrying index n-1
(starting at 0, independent of nesting depth and of the original nested
indices), traversal after a reset equals a fresh traversal, and flatten of
1, nested(2, nested(3, 4)), 5 yields 1, 2, 3, 4, 5 with indices 0 to 4. -/
theorem c8_flatten_fresh_counter (prev : List JSTree) :
    (∀ s : FlattenedState, flattenedReset s = flattenedInit) ∧
    (flattenedTraverse prev flattenedInit).map Prod.snd = flattenForest prev ∧
    (∀ i (hi : i < (flattenForest prev).length),
      (flattenedTraverse prev flattenedInit)[i]? =
        some ((i : Int), (flattenForest prev).get ⟨i, hi⟩)) ∧
    (∀ s : FlattenedState,
      flattenedTraverse prev (flattenedReset s) = flattenedTraverse prev flattenedInit) ∧
    flattenedTraverse [JSTree.atom (JSVal.num 1),
        JSTree.nested [JSTree.atom (JSVal.num 2),
          JSTree.nested [JSTree.atom (JSVal.num 3), JSTree.atom (JSVal.num 4)]],
        JSTree.atom (JSVal.num 5)] flattenedInit
      = [((0 : Int), JSVal.num 1), (1, JSVal.num 2), (2, JSVal.num 3),
         (3, JSVal.num 4), (4, JSVal.num 5)] := by
  refine ⟨fun s => rfl, flatGo_map_snd _ _, ?_, fun s => rfl, by decide⟩
  intro i hi
  have h := flatGo_getElem (flattenForest prev) (-1) i hi
  rw [show (-1 : Int) + 1 + (i : Int) = (i : Int) by ring] at h
  exact h

/-- Claim C8 witness: in the spec example the observation at traversal
position 2 is the atom 3 with index 2. -/
theorem c8_flatten_witness :
    (2 : Nat) < (flattenForest [JSTree.atom (JSVal.num 1),
        JSTree.nested [JSTree.atom (JSVal.num 2),
          JSTree.nested [JSTree.atom (JSVal.num 3), JSTree.atom (JSVal.num 4)]],
        JSTree.atom (JSVal.num 5)]).length ∧
    (flattenedTraverse [JSTree.atom (JSVal.num 1),
        JSTree.nested [JSTree.atom (JSVal.num 2),
          JSTree.nested [JSTree.atom (JSVal.num 3), JSTree.atom (JSVal.num 4)]],
        JSTree.atom (JSVal.num 5)] flattenedInit)[2]? = some ((2 : Int), JSVal.num 3) :=
  ⟨by decide, by
    have h := (c8_flatten_fresh_counter [JSTree.atom (JSVal.num 1),
        JSTree.nested [JSTree.atom (JSVal.num 2),
          JSTree.nested [JSTree.atom (JSVal.num 3), JSTree.atom (JSVal.num 4)]],
        JSTree.atom (JSVal.num 5)]).2.2.1 2 (by decide)
    exact h.trans (by decide)⟩

/-- Claim C4: the factory checks its input in exactly the order chain link,
enumerable capability, Array instance, Object instance: an existing chain
link passes through unchanged (so factory is idempotent on every value it
returns), an enumerable is wrapped by the Enumerable adapter, an Array
instance by the positional adapter, an Object instance by the keyed adapter,
and every remaining value fails with the TypeError naming the received
value. -/
theorem c4_factory_classification :
    (∀ s : SrcVal, s.isChainLink = true → factory s = FactoryResult.passthrough s) ∧
    (∀ s t : SrcVal, factoryValue (factory s) = some t →
      factory t = FactoryResult.passthrough t) ∧
    (∀ s : SrcVal, s.isChainLink = false → s.truthy = true →
      s.hasEnumerableFlag = true →
      factory s = FactoryResult.wrapped AdapterKind.enumerableK s) ∧
    (∀ s : SrcVal, s.isChainLink = false → (s.truthy && s.hasEnumerableFlag) = false →
      s.isArray = true → factory s = FactoryResult.wrapped AdapterKind.arraywiseK s) ∧
    (∀ s : SrcVal, s.isChainLink = false → (s.truthy && s.hasEnumerableFlag) = false →
      s.isArray = false → s.isObject = true →
      factory s = FactoryResult.wrapped AdapterKind.objectwiseK s) ∧
    (∀ s : SrcVal, s.isChainLink = false → (s.truthy && s.hasEnumerableFlag) = false →
      s.isArray = false → s.isObject = false →
      factory s = FactoryResult.failed ("Unsupported source type \"" ++ s.display ++
        "\": only Array or Object are supported.")) := by
  refine ⟨?_, ?_, ?_, ?_, ?_, ?_⟩
  · intro s h
    simp [factory, h]
  · intro s t h
    unfold factory at h
    split_ifs at h with h1 h2 h3 h4
    · simp only [factoryValue, Option.some.injEq] at h
      subst h
      simp [factory, h1]
    · simp only [factoryValue, Option.some.injEq] at h
      subst h
      rfl
    · simp only [factoryValue, Option.some.injEq] at h
      subst h
      rfl
    · simp only [factoryValue, Option.some.injEq] at h
      subst h
      rfl
    · exact Option.noConfusion h
  · intro s h1 h2 h3
    simp [factory, h1, h2, h3]
  · intro s h1 h2 h3
    simp [factory, h1, h2, h3]
  · intro s h1 h2 h3 h4
    simp [factory, h1, h2, h3, h4]
  · intro s h1 h2 h3 h4
    simp [factory, h1, h2, h3, h4]

/-- Claim C4 witness: each classification clause applied at a concrete
shape: a chain link passes through, an enumerable wraps as Enumerable, an
Array as Arraywise, a plain object as Objectwise, and the number 42 fails
with the message naming it. -/
theorem c4_factory_witness :
    factory exLinkVal = FactoryResult.passthrough exLinkVal ∧
    factory exEnumVal = FactoryResult.wrapped AdapterKind.enumerableK exEnumVal ∧
    factory exArrVal = FactoryResult.wrapped AdapterKind.arraywiseK exArrVal ∧
    factory exObjVal = FactoryResult.wrapped AdapterKind.objectwiseK exObjVal ∧
    factory exPrimVal = FactoryResult.failed
      ("Unsupported source type \"42\": only Array or Object are supported.") :=
  ⟨c4_factory_classification.1 _ rfl,
   c4_factory_classification.2.2.1 _ rfl rfl rfl,
   c4_factory_classification.2.2.2.1 _ rfl rfl rfl,
   c4_factory_classification.2.2.2.2.1 _ rfl rfl rfl rfl,
   c4_factory_classification.2.2.2.2.2 _ rfl rfl rfl rfl⟩

/-- Claim C9 (amended): the keyed source adapter constructor raises
synchronously for every non-object argument except undefined: null and
every primitive raise the construction error, while undefined is silently
replaced by a fresh empty object, so construction succeeds with an empty
key set. -/
theorem c9_objectwise_nonobject_amended (heap : Nat → List (String × JSVal))
    (v : JSVal) (hobj : jsInstanceofObject v = false) (hundef : v ≠ JSVal.undef) :
    objectwiseConstruct heap v
      = Except.error "Argument items should be an instance of Object" ∧
    objectwiseConstruct heap JSVal.undef = Except.ok [] := by
  refine ⟨?_, rfl⟩
  unfold objectwiseConstruct
  rw [if_neg hundef]
  match v, hobj with
  | JSVal.num n, _ => rfl
  | JSVal.str s, _ => rfl
  | JSVal.boolV b, _ => rfl
  | JSVal.nullV, _ => rfl
  | JSVal.undef, _ => exact absurd rfl hundef

/-- Claim C9 witness: constructing the keyed adapter over null raises the
construction error. -/
theorem c9_objectwise_witness :
    jsInstanceofObject JSVal.nullV = false ∧ JSVal.nullV ≠ JSVal.undef ∧
    objectwiseConstruct (fun _ => []) JSVal.nullV
      = Except.error "Argument items should be an instance of Object" :=
  ⟨rfl, by decide,
   (c9_objectwise_nonobject_amended (fun _ => []) JSVal.nullV rfl (by decide)).1⟩

/-- Claim C9 counterexample: constructing the keyed adapter over undefined
does not raise: it succeeds with an empty key set, contradicting the claim
that every non-object argument, including undefined, raises. -/
theorem c9_objectwise_undefined_counterexample :
    objectwiseConstruct (fun _ => []) JSVal.undef = Except.ok [] ∧
    objectwiseConstruct (fun _ => []) JSVal.undef
      ≠ Except.error "Argument items should be an instance of Object" :=
  ⟨rfl, by simp [objectwiseConstruct]⟩
